import Mathlib

/-!
# Verification of the object-lifecycle core of the Cloud-Storage back end

Shallow embedding of the Python source under `src/` (Flask route handlers in
`FileController/routes/file_routes.py`, `RestoreController/routes/restore_routes.py`,
`CollectionController/routes/collection_routes.py`,
`CollectionController/models/collection.py` and `Authenticator/models/user.py`).

Modelling conventions:
* MongoDB collections (`db.Files`, `db.TrashBin`, `db.collections`, `db.Users`)
  are lists of records; `find_one` is first-match (`List.find?`), `update_one`
  updates the first match, `delete_one` deletes the first match.
* ObjectIds handed around between operations are natural numbers minted from a
  counter `nextId` (fresh-id supply modelling `ObjectId()` / `uuid4()`); the
  raw 24-character hexadecimal wire format only matters for the identifier
  validation routes, where identifiers are modelled as `List Char`.
* Filenames and other strings are `List Char`.  The werkzeug `secure_filename`
  sanitiser (an external library) is not re-implemented; operations receive the
  already-sanitised name, and theorems that depend on sanitisation carry the
  corresponding hypotheses (such as the name containing no parenthesis, which
  `secure_filename` guarantees by stripping them).
-/

namespace CloudStorage

/-- `s.rsplit('.', 1)` on a name containing a dot: returns `(stem, ext)` where
`ext` is the part after the last dot (dot excluded); `none` when the name has
no dot. -/
def splitLastDot (s : List Char) : Option (List Char × List Char) :=
  let r := s.reverse
  match r.dropWhile (fun c => c ≠ '.') with
  | [] => none
  | _ :: tl => some (tl.reverse, (r.takeWhile (fun c => c ≠ '.')).reverse)

/-- Python `int` on a string of decimal digits (`int(match.group(1))`). -/
def digitsToNat (ds : List Char) : Nat :=
  ds.foldl (fun a c => 10 * a + (c.toNat - 48)) 0

/-- Decimal rendering loop (fuel-based, fuel bounds the number of divisions). -/
def toDecAux : Nat → Nat → List Char → List Char
  | 0, n, acc => Char.ofNat (48 + n % 10) :: acc
  | fuel + 1, n, acc =>
    let d := Char.ofNat (48 + n % 10)
    if n < 10 then d :: acc else toDecAux fuel (n / 10) (d :: acc)

/-- Decimal rendering of a natural number (Python `f"{n}"`). -/
def natToDecimal (n : Nat) : List Char :=
  toDecAux n n []

/-- `re.search(r'\((\d+)\)', name)`: the leftmost occurrence of a `(`,
followed by a nonempty digit run, followed by `)`; returns the number. -/
def firstParenNum : List Char → Option Nat
  | [] => none
  | c :: rest =>
    if c = '(' then
      let ds := rest.takeWhile Char.isDigit
      match rest.dropWhile Char.isDigit with
      | ')' :: _ => if ds.isEmpty then firstParenNum rest else some (digitsToNat ds)
      | _ => firstParenNum rest
    else firstParenNum rest

/-- The anchored regex `^{re.escape(stem)}\(\d+\){re.escape(ext)}$` used to
collect "similar" filenames `stem(N)ext`. -/
def matchesSimilar (stem ext name : List Char) : Bool :=
  (name.take stem.length == stem) &&
  (match name.drop stem.length with
   | '(' :: rest =>
     let ds := rest.takeWhile Char.isDigit
     (!ds.isEmpty) &&
     (match rest.dropWhile Char.isDigit with
      | ')' :: tl => tl == ext
      | _ => false)
   | _ => false)

example : splitLastDot "report.pdf".data = some ("report".data, "pdf".data) := by decide
example : splitLastDot "noext".data = none := by decide
example : splitLastDot "a.b.c".data = some ("a.b".data, "c".data) := by decide
example : natToDecimal 0 = ['0'] := by decide
example : natToDecimal 12 = ['1', '2'] := by decide
example : digitsToNat "007".data = 7 := by decide
example : firstParenNum "a(3)b(7).txt".data = some 3 := by decide
example : firstParenNum "a(b)(12).txt".data = some 12 := by decide
example : matchesSimilar "report".data ".pdf".data "report(2).pdf".data = true := by decide
example : matchesSimilar "report".data ".pdf".data "report().pdf".data = false := by decide
example : matchesSimilar "report".data ".pdf".data "report(2).pdfx".data = false := by decide

/-! ## Data model

Records of the four MongoDB collections.  Fields that a given document kind
never uses keep their default value (Mongo documents are schemaless; the
Python code reads absent keys through `.get(key, default)` with the same
defaults). -/

/-- Logical kind tag computed by `get_file_type`. -/
inductive FType where
  | image | video | document | other
  deriving DecidableEq

/-- A document of `db.Files` (the Active Store for records). -/
structure FileRec where
  fid : Nat
  user_id : Nat
  filename : List Char
  stored_filename : List Char
  file_data : List Nat
  file_type : FType
  file_size : Nat
  upload_date : Nat
  description : List Char := []
  file_path : List Char := []
  collections : List Nat := []
  deriving DecidableEq

/-- The `type` tag of a TrashBin document. -/
inductive TType where
  | file | coll
  deriving DecidableEq

/-- A document of `db.TrashBin`.  File-typed entries use the file fields,
collection-typed entries the collection fields; the rest stay at defaults. -/
structure TrashRec where
  tid : Nat
  user_id : Nat
  ttype : TType
  original_id : Nat
  deleted_at : Nat
  filename : List Char := []
  stored_filename : List Char := []
  file_data : List Nat := []
  file_type : FType := .other
  file_size : Nat := 0
  file_path : List Char := []
  upload_date : Nat := 0
  description : List Char := []
  collections : List Nat := []
  name : List Char := []
  cfiles : List Nat := []
  created_at : Nat := 0
  updated_at : Nat := 0
  deriving DecidableEq

/-- A document of `db.collections`. -/
structure CollRec where
  cid : Nat
  owner_id : Nat
  name : List Char
  files : List Nat := []
  created_at : Nat := 0
  updated_at : Nat := 0
  deriving DecidableEq

/-- A document of `db.Users` (only the fields the Quota Ledger touches). -/
structure UserRec where
  uid : Nat
  storage_limit : Int
  deriving DecidableEq

/-- The whole backing store plus the fresh-identifier supply. -/
structure DB where
  files : List FileRec := []
  trash : List TrashRec := []
  colls : List CollRec := []
  users : List UserRec := []
  nextId : Nat := 0
  deriving DecidableEq

/-- `update_one(filter, {'$set': ...})`: rewrite the first matching document. -/
def updateFirst (p : α → Bool) (f : α → α) : List α → List α
  | [] => []
  | x :: xs => if p x then f x :: xs else x :: updateFirst p f xs

/-- `delete_one(filter)`: remove the first matching document. -/
def deleteFirst (p : α → Bool) : List α → List α
  | [] => []
  | x :: xs => if p x then xs else x :: deleteFirst p xs

/-! ## Naming resolver (`FileUpload.post` / `FileDetail.put`) -/

def IMAGE_EXTENSIONS : List (List Char) :=
  (["png", "jpg", "jpeg", "gif", "bmp", "webp", "svg"] : List String).map String.data

def VIDEO_EXTENSIONS : List (List Char) :=
  (["mp4", "avi", "mov", "wmv", "flv", "mkv", "webm"] : List String).map String.data

def DOCUMENT_EXTENSIONS : List (List Char) :=
  (["pdf", "doc", "docx", "xls", "xlsx", "ppt", "pptx", "txt", "csv", "json",
    "xml"] : List String).map String.data

/-- `get_file_type`: classify by the lowercased extension after the last dot. -/
def get_file_type (filename : List Char) : FType :=
  match splitLastDot filename with
  | none => .other
  | some (_, e) =>
    let ex := e.map Char.toLower
    if IMAGE_EXTENSIONS.any (· == ex) then .image
    else if VIDEO_EXTENSIONS.any (· == ex) then .video
    else if DOCUMENT_EXTENSIONS.any (· == ex) then .document
    else .other

/-- The `(name_without_ext, ext)` pair computed before the collision scan:
`ext` keeps its leading dot, and is empty for names without a dot. -/
def nameStemExt (name : List Char) : List Char × List Char :=
  match splitLastDot name with
  | some (s, e) => (s, '.' :: e)
  | none => (name, [])

/-- The `highest_num` loop: over the names matching the similar-files regex,
track the first parenthesised number found in each name, keeping the largest. -/
def codeHighest (stem ext : List Char) (names : List (List Char)) : Nat :=
  (names.filter (matchesSimilar stem ext)).foldl
    (fun h nm =>
      match firstParenNum nm with
      | some num => if num > h then num else h
      | none => h) 0

/-- `f"{name_without_ext}({highest_num + 1}){ext}"`. -/
def nextName (stem ext : List Char) (names : List (List Char)) : List Char :=
  stem ++ '(' :: natToDecimal (codeHighest stem ext names + 1) ++ ')' :: ext

/-- Names of the active records of owner `u`. -/
def ownerNames (files : List FileRec) (u : Nat) : List (List Char) :=
  (files.filter (fun f => f.user_id == u)).map (·.filename)

/-- The upload path's name resolution (silent policy): keep the desired name
if no active record of the owner already uses it, otherwise auto-apply
`stem(highest+1)ext`. -/
def resolveUploadName (u : Nat) (files : List FileRec) (desired : List Char) :
    List Char :=
  let mine := ownerNames files u
  if mine.any (· == desired) then
    let se := nameStemExt desired
    nextName se.1 se.2 mine
  else desired

/-! ## Upload (`FileUpload.post`) -/

/-- The error entry recorded for a zero-byte file. -/
def emptyFileMsg (nm : List Char) : List Char :=
  "Empty file: ".data ++ nm

/-- Processing of one uploaded file inside the batch loop: resolve the name,
skip the insert with an error entry when the content is empty, otherwise
insert a fresh record (one fresh token for the `uuid4` storage name, one for
the inserted `_id`). -/
def uploadOne (u : Nat) (desc : List Char) (now : Nat) (db : DB)
    (name : List Char) (data : List Nat) :
    DB × Option FileRec × Option (List Char) :=
  let finalName := resolveUploadName u db.files name
  if data.length == 0 then (db, none, some (emptyFileMsg finalName))
  else
    let r : FileRec := {
      fid := db.nextId + 1
      user_id := u
      filename := finalName
      stored_filename := natToDecimal db.nextId ++ '_' :: finalName
      file_data := data
      file_type := get_file_type name
      file_size := data.length
      upload_date := now
      description := desc }
    ({ db with files := db.files ++ [r], nextId := db.nextId + 2 }, some r, none)

/-- The batch loop of `FileUpload.post`. -/
def uploadItems (u : Nat) (desc : List Char) (now : Nat) (db : DB) :
    List (List Char × List Nat) → DB × List FileRec × List (List Char)
  | [] => (db, [], [])
  | (nm, dt) :: rest =>
    match uploadOne u desc now db nm dt with
    | (db1, some r, _) =>
      let out := uploadItems u desc now db1 rest
      (out.1, r :: out.2.1, out.2.2)
    | (db1, none, some e) =>
      let out := uploadItems u desc now db1 rest
      (out.1, out.2.1, e :: out.2.2)
    | (db1, none, none) => uploadItems u desc now db1 rest

/-- Full batch response: results, errors, and status `200`/`207`. -/
structure UploadResponse where
  db : DB
  success_count : Nat
  results : List FileRec
  errors : List (List Char)
  status : Nat
  deriving DecidableEq

def uploadBatch (u : Nat) (desc : List Char) (now : Nat) (db : DB)
    (items : List (List Char × List Nat)) : UploadResponse :=
  let out := uploadItems u desc now db items
  { db := out.1
    success_count := out.2.1.length
    results := out.2.1
    errors := out.2.2
    status := if out.2.2.isEmpty then 200 else 207 }

/-! ## Rename (`FileDetail.put`) -/

inductive RenameOutcome where
  /-- `400 'New filename is required'` / `'Invalid filename'` -/
  | invalidName
  /-- `404 'File not found'` -/
  | notFound
  /-- `403` ownership mismatch -/
  | permissionDenied
  /-- `409` name collision with `suggestion` and `requires_confirmation` -/
  | collision (suggestion : List Char)
  /-- `200` with the updated record -/
  | renamed (f : FileRec)
  deriving DecidableEq

/-- The extension-preservation step of rename: when the old filename has an
extension and the new name has no dot, append the old extension lowercased. -/
def extendRename (oldName newName : List Char) : List Char :=
  match splitLastDot oldName with
  | none => newName
  | some (_, e) =>
    if newName.contains '.' then newName
    else newName ++ '.' :: e.map Char.toLower

/-- The new `stored_filename` on rename: reuse the part before the first `_`
as the uuid part when there is one, otherwise mint a fresh uuid. -/
def renStored (nid : Nat) (stored nm : List Char) : List Char :=
  if stored.contains '_' then stored.takeWhile (· != '_') ++ '_' :: nm
  else natToDecimal nid ++ '_' :: nm

/-- `$set` of the `stored_filename` field. -/
def setStored (s : List Char) (g : FileRec) : FileRec := { g with stored_filename := s }

/-- `$set` of the `filename` field. -/
def setFName (nm : List Char) (g : FileRec) : FileRec := { g with filename := nm }

/-- The store state after the two `update_one` calls of the rename write
phase (`stored_filename` first, then `filename`), `f` being the record the
handler had read. -/
def applyRenameDB (db : DB) (fid : Nat) (nm : List Char) (f : FileRec) : DB :=
  { db with
    files := updateFirst (fun g => g.fid == fid) (setFName nm)
      (updateFirst (fun g => g.fid == fid)
        (setStored (renStored db.nextId f.stored_filename nm)) db.files)
    nextId := if f.stored_filename.contains '_' then db.nextId else db.nextId + 1 }

/-- The write phase of rename: update `stored_filename`, then update
`filename`, then read the updated record back. -/
def applyRename (db : DB) (fid : Nat) (nm : List Char) : DB × RenameOutcome :=
  match db.files.find? (fun f => f.fid == fid) with
  | none => (db, .notFound)
  | some f =>
    match (applyRenameDB db fid nm f).files.find? (fun g => g.fid == fid) with
    | some g => (applyRenameDB db fid nm f, .renamed g)
    | none => (applyRenameDB db fid nm f, .notFound)

/-- The names of the owner's other records (`_id != file_id`, same user),
over which the rename collision check and suggestion scan run. -/
def otherNames (db : DB) (fid u : Nat) : List (List Char) :=
  (db.files.filter (fun g => g.fid != fid && g.user_id == u)).map (·.filename)

/-- The `suggested_name` computed on a rename collision. -/
def renameSugg (db : DB) (fid u : Nat) (newN : List Char) : List Char :=
  nextName (nameStemExt newN).1 (nameStemExt newN).2 (otherNames db fid u)

/-- `FileDetail.put`: rename a record, with confirm-first collision policy.
`requested` is the new name after `secure_filename` sanitisation. -/
def renameFile (db : DB) (fid u : Nat) (requested : List Char) (force : Bool) :
    DB × RenameOutcome :=
  if requested.isEmpty then (db, .invalidName)
  else
    match db.files.find? (fun f => f.fid == fid) with
    | none => (db, .notFound)
    | some f =>
      if f.user_id != u then (db, .permissionDenied)
      else
        if (otherNames db fid u).any (· == extendRename f.filename requested) then
          if force then
            applyRename db fid (renameSugg db fid u (extendRename f.filename requested))
          else (db, .collision (renameSugg db fid u (extendRename f.filename requested)))
        else applyRename db fid (extendRename f.filename requested)

/-! ## Soft delete (`FileDetail.delete`) -/

inductive DeleteOutcome where
  | notFound
  | permissionDenied
  | movedToTrash
  deriving DecidableEq

/-- The `trash_item` document built by `FileDetail.delete`: a full copy of
the record's visible fields plus the type tag, deletion timestamp and
`original_id`. -/
def trashOfFile (tid u fid now : Nat) (f : FileRec) : TrashRec :=
  { tid := tid
    user_id := u
    ttype := .file
    original_id := fid
    deleted_at := now
    filename := f.filename
    stored_filename := f.stored_filename
    file_data := f.file_data
    file_type := f.file_type
    file_size := f.file_size
    file_path := f.file_path
    upload_date := f.upload_date
    description := f.description
    collections := f.collections }

/-- `FileDetail.delete`: copy the record's fields into a TrashBin document
(type `file`, `original_id` the record's id) and delete it from `db.Files`. -/
def softDeleteFile (db : DB) (fid u : Nat) (now : Nat) : DB × DeleteOutcome :=
  match db.files.find? (fun f => f.fid == fid) with
  | none => (db, .notFound)
  | some f =>
    if f.user_id != u then (db, .permissionDenied)
    else
      ({ db with
          trash := db.trash ++ [trashOfFile db.nextId u fid now f]
          files := deleteFirst (fun g => g.fid == fid) db.files
          nextId := db.nextId + 1 }, .movedToTrash)

/-! ## Restore (`RestoreFile.post`) -/

inductive RestoreOutcome where
  /-- `404 'File not found in trash'` -/
  | notFound
  /-- `200 'File restored successfully'` -/
  | restored
  /-- `500` (an exception — e.g. a duplicate-key error on the insert —
  reaches the handler's generic `except` clause) -/
  | serverError
  deriving DecidableEq

/-- Re-insertion of a trashed file: rebuild the record from the trash entry
under its original `_id` (the `original_id` set by soft delete is always a
valid identifier here, so the fallback path that mints a new id is not taken),
insert it into `db.Files`, and remove the trash entry.  `insert_one` with an
explicit `_id` that is already present raises, which the handler surfaces as a
500 error with no state change. -/
def restoreFound (db : DB) (u : Nat) (t : TrashRec) : DB × RestoreOutcome :=
  if db.files.any (fun f => f.fid == t.original_id) then (db, .serverError)
  else
    let r : FileRec := {
      fid := t.original_id
      user_id := u
      filename := t.filename
      stored_filename := t.stored_filename
      file_data := t.file_data
      file_type := t.file_type
      file_size := t.file_size
      file_path := t.file_path
      upload_date := t.upload_date
      description := t.description
      collections := t.collections }
    ({ db with
        files := db.files ++ [r]
        trash := deleteFirst (fun x => x.tid == t.tid) db.trash }, .restored)

/-- `RestoreFile.post`: look the trash entry up by `original_id`, falling back
to the TrashBin `_id` for backward compatibility. -/
def restoreFile (db : DB) (fid u : Nat) : DB × RestoreOutcome :=
  match db.trash.find?
      (fun t => t.original_id == fid && t.user_id == u && t.ttype == TType.file) with
  | some t => restoreFound db u t
  | none =>
    match db.trash.find?
        (fun t => t.tid == fid && t.user_id == u && t.ttype == TType.file) with
    | some t => restoreFound db u t
    | none => (db, .notFound)

/-! ## Purge (`DeletePermanently.delete`) -/

inductive PurgeOutcome where
  | notFound
  | deleted
  deriving DecidableEq

/-- `DeletePermanently.delete`: find the trash entry by its TrashBin `_id` and
owner and remove it.  (The `os.remove` branch concerns a legacy filesystem
`file_path`, which is always empty for records created by this code; nothing
else — in particular no collection document — is touched.) -/
def deletePermanently (db : DB) (itemId u : Nat) : DB × PurgeOutcome :=
  match db.trash.find? (fun t => t.tid == itemId && t.user_id == u) with
  | none => (db, .notFound)
  | some _ =>
    ({ db with trash := deleteFirst (fun t => t.tid == itemId) db.trash }, .deleted)

/-! ## Membership index (`Collection.remove_file`) -/

/-- `Collection.remove_file`: `$pull` the file id from the member array of the
owner's collection (defined by the source, but never invoked on purge). -/
def collRemoveFile (db : DB) (cid u fileId : Nat) (now : Nat) :
    DB × Option CollRec :=
  let colls1 := updateFirst (fun c => c.cid == cid && c.owner_id == u)
    (fun c => { c with files := c.files.filter (fun x => x != fileId),
                       updated_at := now }) db.colls
  if db.colls.any (fun c => c.cid == cid && c.owner_id == u) then
    ({ db with colls := colls1 }, colls1.find? (fun c => c.cid == cid))
  else (db, none)

/-! ## Identifier validation (`CollectionDetail.get` / `FileDownload.get`) -/

/-- A character the `ObjectId` constructor accepts in a 24-character id. -/
def isHexChar (c : Char) : Bool :=
  c.isDigit || ('a' ≤ c && c ≤ 'f') || ('A' ≤ c && c ≤ 'F')

/-- `ObjectId(s)` on a string argument: succeeds exactly on 24-character
hexadecimal strings, producing the identifier's value. -/
def parseOid (s : List Char) : Option Nat :=
  if s.length = 24 ∧ s.all isHexChar then
    some (s.foldl (fun a c =>
      16 * a + (if c.isDigit then c.toNat - 48
                else if 'a' ≤ c then c.toNat - 87 else c.toNat - 55)) 0)
  else none

inductive CollGetOutcome where
  /-- `400 'Invalid collection ID format...'` -/
  | invalidFormat
  | notFound
  | ok (c : CollRec)
  deriving DecidableEq

/-- `CollectionDetail.get`: checks the 24-character shape, then the `ObjectId`
conversion (rejecting `InvalidId` with 400), before querying the store. -/
def collectionDetailGet (db : DB) (cidStr : List Char) (u : Nat) :
    CollGetOutcome :=
  if cidStr.length != 24 then .invalidFormat
  else
    match parseOid cidStr with
    | none => .invalidFormat
    | some cid =>
      match db.colls.find? (fun c => c.cid == cid && c.owner_id == u) with
      | none => .notFound
      | some c => .ok c

inductive DownloadOutcome where
  /-- `404 'File not found'` -/
  | notFound
  /-- `403` ownership mismatch -/
  | permissionDenied
  /-- `404 'File data is missing or corrupted'` -/
  | missingData
  /-- `200` `send_file` -/
  | ok (f : FileRec)
  /-- `500 'Error downloading file: ...'` — the `ObjectId` constructor raised
  inside the handler's `try` and the generic `except` answered -/
  | serverError
  deriving DecidableEq

/-- `FileDownload.get`: no identifier validation — `ObjectId(file_id)` is
called directly, and a malformed id raises into the generic handler. -/
def fileDownloadGet (db : DB) (fidStr : List Char) (u : Nat) : DownloadOutcome :=
  match parseOid fidStr with
  | none => .serverError
  | some fid =>
    match db.files.find? (fun f => f.fid == fid) with
    | none => .notFound
    | some f =>
      if f.user_id != u then .permissionDenied
      else if f.file_data.isEmpty then .missingData
      else .ok f

/-! ## Quota ledger (`User.increase_storage_limit`) -/

/-- Unit normalisation: `unit.upper()` compared against `GB` / `TB`, any other
unit leaving the amount in the base unit (MB). -/
def storageAddMB (amount : Int) (unit : List Char) : Int :=
  let un := unit.map Char.toUpper
  if un == "GB".data then amount * 1024
  else if un == "TB".data then amount * 1024 * 1024
  else amount

/-- `User.increase_storage_limit`: read the user's current limit, add the
normalised amount, write the new limit back.  Returns `false` when the user
does not exist.  (`user.get('storage_limit', 0)` — the field is always
present in this model.) -/
def increase_storage_limit (users : List UserRec) (uid : Nat) (amount : Int)
    (unit : List Char) : List UserRec × Bool :=
  match users.find? (fun w => w.uid == uid) with
  | none => (users, false)
  | some w =>
    let newLimit := w.storage_limit + storageAddMB amount unit
    (updateFirst (fun x => x.uid == uid)
      (fun x => { x with storage_limit := newLimit }) users, true)

/-- `getLimit(owner)`: the stored storage limit. -/
def getLimit (users : List UserRec) (uid : Nat) : Option Int :=
  (users.find? (fun w => w.uid == uid)).map (·.storage_limit)

/-- A finite sequence of `increase` calls, applied in order. -/
def applyIncreases (users : List UserRec) (uid : Nat)
    (calls : List (Int × List Char)) : List UserRec :=
  calls.foldl (fun us c => (increase_storage_limit us uid c.1 c.2).1) users

/-! ## Generic lemmas about the store primitives -/

theorem deleteFirst_sublist (p : α → Bool) (l : List α) :
    (deleteFirst p l).Sublist l := by
  induction l with
  | nil => simp [deleteFirst]
  | cons x xs ih =>
    by_cases h : p x
    · simp only [deleteFirst, h, if_true]
      exact List.sublist_cons_self x xs
    · simpa [deleteFirst, h] using ih.cons₂ x

theorem find?_updateFirst (p : α → Bool) (f : α → α) (l : List α)
    (hp : ∀ x, p (f x) = p x) :
    (updateFirst p f l).find? p = (l.find? p).map f := by
  induction l with
  | nil => simp [updateFirst]
  | cons x xs ih =>
    by_cases h : p x
    · simp [updateFirst, h, List.find?_cons, hp x]
    · simp [updateFirst, h, List.find?_cons, ih]

theorem updateFirst_updateFirst (p : α → Bool) (f g : α → α) (l : List α)
    (hp : ∀ x, p (g x) = p x) :
    updateFirst p f (updateFirst p g l) = updateFirst p (fun x => f (g x)) l := by
  induction l with
  | nil => simp [updateFirst]
  | cons x xs ih =>
    by_cases h : p x
    · simp [updateFirst, h, hp x]
    · simp [updateFirst, h, ih]

theorem find?_append_of_none (p : α → Bool) (l1 l2 : List α)
    (h : ∀ x ∈ l1, p x = false) :
    (l1 ++ l2).find? p = l2.find? p := by
  induction l1 with
  | nil => simp
  | cons x xs ih =>
    have hx := h x (by simp)
    simp only [List.cons_append, List.find?_cons, hx]
    exact ih (fun y hy => h y (by simp [hy]))

theorem deleteFirst_append_singleton (p : α → Bool) (l : List α) (a : α)
    (h : ∀ x ∈ l, p x = false) (ha : p a = true) :
    deleteFirst p (l ++ [a]) = l := by
  induction l with
  | nil => simp [deleteFirst, ha]
  | cons x xs ih =>
    have hx := h x (by simp)
    simp only [List.cons_append, deleteFirst, hx, Bool.false_eq_true, if_false]
    exact congrArg (List.cons x) (ih (fun y hy => h y (by simp [hy])))

/-! ## Decimal rendering: `natToDecimal` renders exactly the digits that
`digitsToNat` reads back -/

theorem toDecAux_spec (n : Nat) :
    ∀ fuel acc, n ≤ fuel → toDecAux fuel n acc = toDecAux n n [] ++ acc := by
  induction n using Nat.strong_induction_on with
  | _ n ih =>
    intro fuel acc hle
    by_cases h10 : n < 10
    · match fuel, n, h10 with
      | 0, 0, _ => simp [toDecAux]
      | 0, m + 1, _ => omega
      | f + 1, 0, _ => simp [toDecAux]
      | f + 1, m + 1, hm => simp [toDecAux, hm]
    · have hn : 0 < n := by omega
      match fuel, hle with
      | 0, hle => omega
      | f + 1, hle =>
        have hd : n / 10 < n := Nat.div_lt_self hn (by omega)
        have hdf : n / 10 ≤ f := by omega
        match n, hn, h10, hd, hdf, hle with
        | m + 1, _, h10, hd, hdf, hle =>
          simp only [toDecAux, if_neg h10]
          rw [ih ((m + 1) / 10) hd f _ hdf, ih ((m + 1) / 10) hd m _ (by omega)]
          simp

theorem natToDecimal_lt10 (n : Nat) (h : n < 10) :
    natToDecimal n = [Char.ofNat (48 + n % 10)] := by
  match n, h with
  | 0, _ => simp [natToDecimal, toDecAux]
  | m + 1, hm => simp [natToDecimal, toDecAux, hm]

theorem natToDecimal_ge10 (n : Nat) (h : 10 ≤ n) :
    natToDecimal n = natToDecimal (n / 10) ++ [Char.ofNat (48 + n % 10)] := by
  match n, h with
  | m + 1, h =>
    have hd : (m + 1) / 10 < m + 1 := Nat.div_lt_self (by omega) (by omega)
    simp only [natToDecimal, toDecAux, if_neg (by omega : ¬ m + 1 < 10)]
    exact toDecAux_spec ((m + 1) / 10) m _ (by omega)

theorem digitChar_toNat (d : Nat) (h : d < 10) :
    (Char.ofNat (48 + d)).toNat = 48 + d := by
  interval_cases d <;> decide

theorem digitChar_isDigit (d : Nat) (h : d < 10) :
    (Char.ofNat (48 + d)).isDigit = true := by
  interval_cases d <;> decide

theorem natToDecimal_all_digits (n : Nat) :
    (natToDecimal n).all Char.isDigit = true := by
  induction n using Nat.strong_induction_on with
  | _ n ih =>
    by_cases h : n < 10
    · rw [natToDecimal_lt10 n h]
      simp [digitChar_isDigit (n % 10) (Nat.mod_lt n (by omega))]
    · rw [natToDecimal_ge10 n (by omega)]
      have := ih (n / 10) (Nat.div_lt_self (by omega) (by omega))
      simp only [List.all_append, this, Bool.true_and, List.all_cons, List.all_nil,
        Bool.and_true]
      exact digitChar_isDigit (n % 10) (Nat.mod_lt n (by omega))

theorem natToDecimal_ne_nil (n : Nat) : natToDecimal n ≠ [] := by
  by_cases h : n < 10
  · rw [natToDecimal_lt10 n h]; simp
  · rw [natToDecimal_ge10 n (by omega)]; simp

theorem digitsToNat_append (l1 l2 : List Char) :
    digitsToNat (l1 ++ l2) =
      l2.foldl (fun a c => 10 * a + (c.toNat - 48)) (digitsToNat l1) := by
  simp [digitsToNat, List.foldl_append]

theorem digitsToNat_natToDecimal (n : Nat) :
    digitsToNat (natToDecimal n) = n := by
  induction n using Nat.strong_induction_on with
  | _ n ih =>
    by_cases h : n < 10
    · rw [natToDecimal_lt10 n h]
      have hm : n % 10 = n := Nat.mod_eq_of_lt h
      rw [hm]
      simp only [digitsToNat, List.foldl_cons, List.foldl_nil]
      rw [digitChar_toNat n h]
      omega
    · rw [natToDecimal_ge10 n (by omega), digitsToNat_append]
      rw [ih (n / 10) (Nat.div_lt_self (by omega) (by omega))]
      simp only [List.foldl_cons, List.foldl_nil]
      rw [digitChar_toNat (n % 10) (Nat.mod_lt n (by omega))]
      omega

/-! ## Lemmas about the naming resolver -/

theorem takeWhile_all_append (p : α → Bool) (l t : List α) (x : α)
    (hl : ∀ a ∈ l, p a = true) (hx : p x = false) :
    (l ++ x :: t).takeWhile p = l ∧ (l ++ x :: t).dropWhile p = x :: t := by
  induction l with
  | nil => simp [List.takeWhile, List.dropWhile, hx]
  | cons y ys ih =>
    have hy := hl y (by simp)
    have := ih (fun a ha => hl a (by simp [ha]))
    simp [List.takeWhile, List.dropWhile, hy, this.1, this.2]

theorem dropWhile_head_false {p : α → Bool} :
    ∀ {l : List α} {x : α} {xs : List α}, l.dropWhile p = x :: xs → p x = false := by
  intro l
  induction l with
  | nil => intro x xs h; simp [List.dropWhile] at h
  | cons y ys ih =>
    intro x xs h
    by_cases hy : p y
    · simp only [List.dropWhile, hy, if_true] at h
      exact ih h
    · simp only [List.dropWhile, Bool.not_eq_true] at h hy
      rw [hy] at h
      simp only [Bool.false_eq_true, if_false, List.cons.injEq] at h
      rw [← h.1]
      exact hy

theorem ne_paren_of_isDigit {c : Char} (h : c.isDigit = true) : c ≠ '(' := by
  intro he
  rw [he] at h
  exact absurd h (by decide)

theorem firstParenNum_append (pre s : List Char) (h : ∀ c ∈ pre, c ≠ '(') :
    firstParenNum (pre ++ s) = firstParenNum s := by
  induction pre with
  | nil => simp
  | cons c cs ih =>
    have hc := h c (by simp)
    simp only [List.cons_append, firstParenNum, if_neg hc]
    exact ih (fun a ha => h a (by simp [ha]))

theorem firstParenNum_paren (ds t : List Char) (hne : ds ≠ [])
    (hd : ∀ c ∈ ds, c.isDigit = true) :
    firstParenNum ('(' :: (ds ++ ')' :: t)) = some (digitsToNat ds) := by
  have hsplit := takeWhile_all_append Char.isDigit ds t ')' hd (by decide)
  simp only [firstParenNum, if_pos rfl, hsplit.1, hsplit.2,
    List.isEmpty_eq_false.mpr hne, Bool.false_eq_true, if_false]
  simp

theorem matchesSimilar_intro (stem ext ds : List Char) (hne : ds ≠ [])
    (hd : ∀ c ∈ ds, c.isDigit = true) :
    matchesSimilar stem ext (stem ++ '(' :: (ds ++ ')' :: ext)) = true := by
  have hsplit := takeWhile_all_append Char.isDigit ds ext ')' hd (by decide)
  simp only [matchesSimilar, List.take_left, beq_self_eq_true, Bool.true_and,
    List.drop_left, hsplit.1, hsplit.2, List.isEmpty_eq_false.mpr hne]
  simp

theorem matchesSimilar_elim {stem ext name : List Char}
    (h : matchesSimilar stem ext name = true) :
    ∃ ds, name = stem ++ '(' :: (ds ++ ')' :: ext) ∧ ds ≠ [] ∧
      ∀ c ∈ ds, c.isDigit = true := by
  unfold matchesSimilar at h
  rw [Bool.and_eq_true] at h
  obtain ⟨h1, h2⟩ := h
  have htake : name.take stem.length = stem := by simpa using h1
  have hparts := List.take_append_drop stem.length name
  split at h2
  case h_2 => exact absurd h2 (by simp)
  case h_1 rest heq =>
    rw [Bool.and_eq_true] at h2
    obtain ⟨hne, h3⟩ := h2
    split at h3
    case h_2 => exact absurd h3 (by simp)
    case h_1 tl heq2 =>
      have htl : tl = ext := by simpa using h3
      subst htl
      have hrest := List.takeWhile_append_dropWhile Char.isDigit rest
      rw [heq2] at hrest
      refine ⟨rest.takeWhile Char.isDigit, ?_, ?_, ?_⟩
      · rw [← hparts, htake, heq, hrest]
      · simpa using hne
      · exact fun c hc => List.mem_takeWhile_imp hc

theorem firstParenNum_of_similar {stem ext name : List Char}
    (hp : ∀ c ∈ stem, c ≠ '(')
    (h : matchesSimilar stem ext name = true) :
    ∃ ds, name = stem ++ '(' :: (ds ++ ')' :: ext) ∧ ds ≠ [] ∧
      (∀ c ∈ ds, c.isDigit = true) ∧
      firstParenNum name = some (digitsToNat ds) := by
  obtain ⟨ds, hname, hne, hd⟩ := matchesSimilar_elim h
  refine ⟨ds, hname, hne, hd, ?_⟩
  rw [hname, firstParenNum_append stem _ hp, firstParenNum_paren ds ext hne hd]

/-- The accumulator step of the `highest_num` loop. -/
def highStep (h : Nat) (nm : List Char) : Nat :=
  match firstParenNum nm with
  | some num => if num > h then num else h
  | none => h

theorem codeHighest_eq_foldl (stem ext : List Char) (names : List (List Char)) :
    codeHighest stem ext names =
      (names.filter (matchesSimilar stem ext)).foldl highStep 0 := rfl

theorem le_highStep (h : Nat) (nm : List Char) : h ≤ highStep h nm := by
  unfold highStep
  split <;> try omega
  split <;> omega

theorem highStep_ge (h : Nat) (nm : List Char) :
    (firstParenNum nm).getD 0 ≤ highStep h nm := by
  unfold highStep
  split
  case h_1 num heq => rw [heq]; simp only [Option.getD_some]; split <;> omega
  case h_2 heq => rw [heq]; simp

theorem le_foldl_highStep (l : List (List Char)) :
    ∀ a : Nat, a ≤ l.foldl highStep a := by
  induction l with
  | nil => simp
  | cons x xs ih =>
    intro a
    calc a ≤ highStep a x := le_highStep a x
    _ ≤ xs.foldl highStep (highStep a x) := ih _

theorem foldl_highStep_mem {l : List (List Char)} {nm : List Char}
    (hmem : nm ∈ l) (a : Nat) :
    (firstParenNum nm).getD 0 ≤ l.foldl highStep a := by
  induction l generalizing a with
  | nil => simp at hmem
  | cons x xs ih =>
    rcases List.mem_cons.mp hmem with rfl | hmem2
    · calc (firstParenNum nm).getD 0 ≤ highStep a nm := highStep_ge a nm
      _ ≤ xs.foldl highStep (highStep a nm) := le_foldl_highStep xs _
    · exact ih hmem2 _

theorem le_codeHighest {stem ext nm : List Char} {names : List (List Char)}
    (hmem : nm ∈ names) (hsim : matchesSimilar stem ext nm = true) :
    (firstParenNum nm).getD 0 ≤ codeHighest stem ext names := by
  rw [codeHighest_eq_foldl]
  exact foldl_highStep_mem (List.mem_filter.mpr ⟨hmem, hsim⟩) 0

theorem natToDecimal_mem_digits {n : Nat} {c : Char}
    (hc : c ∈ natToDecimal n) : c.isDigit = true :=
  List.all_eq_true.mp (natToDecimal_all_digits n) c hc

theorem nextName_firstParenNum (stem ext : List Char) (names : List (List Char))
    (hp : ∀ c ∈ stem, c ≠ '(') :
    firstParenNum (nextName stem ext names) =
      some (codeHighest stem ext names + 1) := by
  unfold nextName
  rw [show stem ++ '(' :: natToDecimal (codeHighest stem ext names + 1) ++ ')' :: ext
      = stem ++ '(' :: (natToDecimal (codeHighest stem ext names + 1) ++ ')' :: ext) by simp]
  rw [firstParenNum_append stem _ hp,
    firstParenNum_paren _ _ (natToDecimal_ne_nil _) (fun c hc => natToDecimal_mem_digits hc),
    digitsToNat_natToDecimal]

theorem nextName_matchesSimilar (stem ext : List Char) (names : List (List Char)) :
    matchesSimilar stem ext (nextName stem ext names) = true := by
  unfold nextName
  rw [show stem ++ '(' :: natToDecimal (codeHighest stem ext names + 1) ++ ')' :: ext
      = stem ++ '(' :: (natToDecimal (codeHighest stem ext names + 1) ++ ')' :: ext) by simp]
  exact matchesSimilar_intro stem ext _ (natToDecimal_ne_nil _)
    (fun c hc => natToDecimal_mem_digits hc)

/-- Key fact behind the collision resolution: the proposed name
`stem(highest+1)ext` cannot already be one of the scanned names, provided the
stem contains no parenthesis (true of every sanitised name). -/
theorem nextName_not_mem (stem ext : List Char) (names : List (List Char))
    (hp : ∀ c ∈ stem, c ≠ '(') :
    nextName stem ext names ∉ names := by
  intro hmem
  have hb := le_codeHighest hmem (nextName_matchesSimilar stem ext names)
  rw [nextName_firstParenNum stem ext names hp] at hb
  simp at hb

theorem splitLastDot_eq {s a b : List Char} (h : splitLastDot s = some (a, b)) :
    s = a ++ '.' :: b := by
  simp only [splitLastDot] at h
  cases hdw : List.dropWhile (fun c => decide (c ≠ '.')) s.reverse with
  | nil => rw [hdw] at h; simp at h
  | cons c tl =>
    rw [hdw] at h
    simp only [Option.some.injEq, Prod.mk.injEq] at h
    have hc : c = '.' := by simpa using dropWhile_head_false hdw
    subst hc
    have hsplit :=
      List.takeWhile_append_dropWhile (fun c => decide (c ≠ '.')) s.reverse
    rw [hdw] at hsplit
    have hs : s =
        ((s.reverse.takeWhile (fun c => decide (c ≠ '.'))) ++ '.' :: tl).reverse := by
      rw [hsplit, List.reverse_reverse]
    rw [hs, List.reverse_append, List.reverse_cons, ← h.1, ← h.2]
    simp

theorem nameStemExt_eq (name : List Char) :
    name = (nameStemExt name).1 ++ (nameStemExt name).2 := by
  unfold nameStemExt
  split
  case h_1 a b heq => simpa using splitLastDot_eq heq
  case h_2 => simp

theorem nameStemExt_stem_mem {name : List Char} {c : Char}
    (hc : c ∈ (nameStemExt name).1) : c ∈ name := by
  have h := nameStemExt_eq name
  rw [h]
  exact List.mem_append_left _ hc

/-! ## Per-owner uniqueness of active display names -/

theorem ownerNames_cons (x : FileRec) (xs : List FileRec) (v : Nat) :
    ownerNames (x :: xs) v =
      (if x.user_id == v then [x.filename] else []) ++ ownerNames xs v := by
  unfold ownerNames
  rw [List.filter_cons]
  split
  · simp_all
  · simp_all

theorem ownerNames_append_singleton (files : List FileRec) (r : FileRec) (v : Nat) :
    ownerNames (files ++ [r]) v =
      ownerNames files v ++ (if r.user_id == v then [r.filename] else []) := by
  unfold ownerNames
  rw [List.filter_append, List.map_append]
  congr 1
  rw [List.filter_cons]
  split
  · simp
  · simp

theorem mem_ownerNames {files : List FileRec} {v : Nat} {nm : List Char} :
    nm ∈ ownerNames files v ↔ ∃ g ∈ files, g.user_id = v ∧ g.filename = nm := by
  unfold ownerNames
  simp only [List.mem_map, List.mem_filter, beq_iff_eq]
  constructor
  · rintro ⟨g, ⟨hg, hu⟩, hn⟩
    exact ⟨g, hg, hu, hn⟩
  · rintro ⟨g, hg, hu, hn⟩
    exact ⟨g, ⟨hg, hu⟩, hn⟩

theorem nodup_append_singleton {l : List α} {a : α}
    (ha : a ∉ l) (h : l.Nodup) : (l ++ [a]).Nodup :=
  (List.perm_append_singleton a l).nodup_iff.mpr (List.nodup_cons.mpr ⟨ha, h⟩)

/-- The name chosen by the upload resolver is never one the owner already
uses, provided the desired name is parenthesis-free (which `secure_filename`
guarantees). -/
theorem resolveUploadName_not_mem (u : Nat) (files : List FileRec)
    (desired : List Char) (hp : '(' ∉ desired) :
    resolveUploadName u files desired ∉ ownerNames files u := by
  unfold resolveUploadName
  cases h : (ownerNames files u).any (· == desired) with
  | true =>
    rw [if_pos h]
    apply nextName_not_mem
    intro c hc heq
    exact hp (by rw [← heq]; exact nameStemExt_stem_mem hc)
  | false =>
    rw [if_neg (by simp [h])]
    intro hmem
    have := List.any_eq_false.mp h _ hmem
    simp at this

theorem uploadOne_preserves_nodup (u : Nat) (desc : List Char) (now : Nat)
    (db : DB) (name : List Char) (data : List Nat) (v : Nat)
    (hp : '(' ∉ name)
    (hnd : (ownerNames db.files v).Nodup) :
    (ownerNames ((uploadOne u desc now db name data).1).files v).Nodup := by
  unfold uploadOne
  cases hlen : data.length == 0 with
  | true => simpa using hnd
  | false =>
    simp only [Bool.false_eq_true, if_false]
    rw [ownerNames_append_singleton]
    cases huv : (u == v : Bool) with
    | false => simpa [huv] using hnd
    | true =>
      have : u = v := by simpa using huv
      subst this
      simp only [huv, if_true]
      exact nodup_append_singleton (resolveUploadName_not_mem u db.files name hp) hnd

theorem softDeleteFile_preserves_nodup (db : DB) (fid u now v : Nat)
    (hnd : (ownerNames db.files v).Nodup) :
    (ownerNames ((softDeleteFile db fid u now).1).files v).Nodup := by
  unfold softDeleteFile
  split
  · exact hnd
  · split
    · exact hnd
    · refine List.Nodup.sublist ?_ hnd
      exact (List.Sublist.filter _ (deleteFirst_sublist _ _)).map _

/-! ## Renaming preserves per-owner uniqueness -/

theorem mem_updateFirst {p : α → Bool} {φ : α → α} {l : List α} {x : α}
    (hx : x ∈ updateFirst p φ l) :
    x ∈ l ∨ ∃ y ∈ l, p y = true ∧ x = φ y := by
  induction l with
  | nil => simp [updateFirst] at hx
  | cons z zs ih =>
    by_cases hz : p z
    · rw [updateFirst, if_pos hz] at hx
      rcases List.mem_cons.mp hx with rfl | hmem
      · exact Or.inr ⟨z, by simp, hz, rfl⟩
      · exact Or.inl (by simp [hmem])
    · rw [updateFirst, if_neg hz] at hx
      rcases List.mem_cons.mp hx with rfl | hmem
      · exact Or.inl (by simp)
      · rcases ih hmem with h1 | ⟨y, hy, hpy, hxy⟩
        · exact Or.inl (by simp [h1])
        · exact Or.inr ⟨y, by simp [hy], hpy, hxy⟩

theorem map_updateFirst (p : α → Bool) (φ : α → α) (l : List α) (f : α → β)
    (hf : ∀ x, f (φ x) = f x) : (updateFirst p φ l).map f = l.map f := by
  induction l with
  | nil => rfl
  | cons z zs ih =>
    by_cases hz : p z
    · simp only [updateFirst, if_pos hz, List.map_cons, hf]
    · simp only [updateFirst, if_neg hz, List.map_cons, ih]

theorem ownerNames_updateFirst_congr (p : FileRec → Bool) (φ : FileRec → FileRec)
    (l : List FileRec) (v : Nat)
    (hu : ∀ x, (φ x).user_id = x.user_id)
    (hn : ∀ x, (φ x).filename = x.filename) :
    ownerNames (updateFirst p φ l) v = ownerNames l v := by
  induction l with
  | nil => rfl
  | cons z zs ih =>
    by_cases hz : p z
    · rw [updateFirst, if_pos hz, ownerNames_cons, ownerNames_cons, hu, hn]
    · rw [updateFirst, if_neg hz, ownerNames_cons, ownerNames_cons, ih]

theorem ownerNames_updateFirst_other (p : FileRec → Bool) (φ : FileRec → FileRec)
    (l : List FileRec) (v : Nat)
    (hu : ∀ x, (φ x).user_id = x.user_id)
    (hv : ∀ x ∈ l, p x = true → x.user_id ≠ v) :
    ownerNames (updateFirst p φ l) v = ownerNames l v := by
  induction l with
  | nil => rfl
  | cons z zs ih =>
    by_cases hz : p z
    · have hzv : z.user_id ≠ v := hv z (by simp) hz
      rw [updateFirst, if_pos hz, ownerNames_cons, ownerNames_cons, hu]
      rw [if_neg (by simpa using hzv), if_neg (by simpa using hzv)]
    · rw [updateFirst, if_neg hz, ownerNames_cons, ownerNames_cons,
        ih (fun x hx => hv x (by simp [hx]))]

theorem ownerNames_updateFirst_subset (p : FileRec → Bool) (φ : FileRec → FileRec)
    (l : List FileRec) (v : Nat) (nm : List Char)
    (hn : ∀ x, (φ x).filename = nm)
    {y : List Char} (hy : y ∈ ownerNames (updateFirst p φ l) v) :
    y ∈ ownerNames l v ∨ y = nm := by
  rcases mem_ownerNames.mp hy with ⟨g, hg, hgu, hgn⟩
  rcases mem_updateFirst hg with hmem | ⟨z, hz, hpz, rfl⟩
  · exact Or.inl (mem_ownerNames.mpr ⟨g, hmem, hgu, hgn⟩)
  · exact Or.inr (by rw [← hgn, hn])

theorem nodup_ownerNames_updateFirst
    (l : List FileRec) (k u : Nat) (nm : List Char) (φ : FileRec → FileRec)
    (hφu : ∀ x, (φ x).user_id = x.user_id)
    (hφn : ∀ x, (φ x).filename = nm)
    (hids : (l.map (·.fid)).Nodup)
    (honly : ∀ x ∈ l, x.fid = k → x.user_id = u)
    (hnew : ∀ g ∈ l, g.fid ≠ k → g.user_id = u → g.filename ≠ nm)
    (hnd : (ownerNames l u).Nodup) :
    (ownerNames (updateFirst (fun g => g.fid == k) φ l) u).Nodup := by
  induction l with
  | nil => simp [updateFirst, ownerNames]
  | cons x xs ih =>
    rw [List.map_cons, List.nodup_cons] at hids
    by_cases hpx : ((x.fid == k : Bool) = true)
    · have hxk : x.fid = k := by simpa using hpx
      have hxu : x.user_id = u := honly x (by simp) hxk
      rw [updateFirst, if_pos hpx, ownerNames_cons, hφu,
        if_pos (by simpa using hxu), hφn]
      rw [ownerNames_cons, if_pos (by simpa using hxu)] at hnd
      simp only [List.singleton_append, List.nodup_cons] at hnd ⊢
      refine ⟨?_, hnd.2⟩
      intro hmem
      rcases mem_ownerNames.mp hmem with ⟨g, hg, hgu, hgn⟩
      have hgk : g.fid ≠ k := by
        intro he
        apply hids.1
        have hmm : g.fid ∈ List.map (fun x => x.fid) xs := List.mem_map_of_mem _ hg
        rwa [he, ← hxk] at hmm
      exact hnew g (by simp [hg]) hgk hgu hgn
    · have hxk : x.fid ≠ k := by simpa using hpx
      rw [updateFirst, if_neg hpx, ownerNames_cons]
      rw [ownerNames_cons] at hnd
      have htail : ∀ g ∈ xs, g.fid ≠ k → g.user_id = u → g.filename ≠ nm :=
        fun g hg => hnew g (by simp [hg])
      have honlyt : ∀ g ∈ xs, g.fid = k → g.user_id = u :=
        fun g hg => honly g (by simp [hg])
      by_cases hxu : ((x.user_id == u : Bool) = true)
      · rw [if_pos hxu] at hnd ⊢
        simp only [List.singleton_append, List.nodup_cons] at hnd ⊢
        refine ⟨?_, ih hids.2 honlyt htail hnd.2⟩
        intro hmem
        rcases ownerNames_updateFirst_subset _ φ xs u nm hφn hmem with h1 | h1
        · exact hnd.1 h1
        · exact hnew x (by simp) hxk (by simpa using hxu) h1
      · rw [if_neg hxu] at hnd ⊢
        simp only [List.nil_append] at hnd ⊢
        exact ih hids.2 honlyt htail hnd

theorem applyRenameDB_preserves_nodup (db : DB) (fid u : Nat) (nm : List Char)
    (f : FileRec) (v : Nat)
    (hids : (db.files.map (·.fid)).Nodup)
    (honly : ∀ x ∈ db.files, x.fid = fid → x.user_id = u)
    (hnew : ∀ g ∈ db.files, g.fid ≠ fid → g.user_id = u → g.filename ≠ nm)
    (hndu : (ownerNames db.files u).Nodup)
    (hndv : (ownerNames db.files v).Nodup) :
    (ownerNames (applyRenameDB db fid nm f).files v).Nodup := by
  unfold applyRenameDB
  simp only []
  have hcongr : ∀ w, ownerNames (updateFirst (fun g => g.fid == fid)
      (setStored (renStored db.nextId f.stored_filename nm))
      db.files) w = ownerNames db.files w :=
    fun w => ownerNames_updateFirst_congr _ (setStored _) _ w
      (fun x => rfl) (fun x => rfl)
  have hids1 : ((updateFirst (fun g => g.fid == fid)
      (setStored (renStored db.nextId f.stored_filename nm))
      db.files).map (·.fid)).Nodup := by
    rw [map_updateFirst _ (setStored _) _ (·.fid) (fun x => rfl)]
    exact hids
  have honly1 : ∀ x ∈ updateFirst (fun g => g.fid == fid)
      (setStored (renStored db.nextId f.stored_filename nm))
      db.files, x.fid = fid → x.user_id = u := by
    intro x hx hxf
    rcases mem_updateFirst hx with hmem | ⟨y, hy, hpy, rfl⟩
    · exact honly x hmem hxf
    · exact honly y hy (by simpa using hpy)
  have hnew1 : ∀ g ∈ updateFirst (fun g => g.fid == fid)
      (setStored (renStored db.nextId f.stored_filename nm))
      db.files, g.fid ≠ fid → g.user_id = u → g.filename ≠ nm := by
    intro g hg hgf hgu
    rcases mem_updateFirst hg with hmem | ⟨y, hy, hpy, rfl⟩
    · exact hnew g hmem hgf hgu
    · exact absurd (by simpa using hpy) hgf
  by_cases hvu : v = u
  · subst hvu
    exact nodup_ownerNames_updateFirst _ fid v nm (setFName nm)
      (fun x => rfl) (fun x => rfl)
      hids1 honly1 hnew1 (by rw [hcongr v]; exact hndu)
  · rw [ownerNames_updateFirst_other _ (setFName nm) _ v (fun x => rfl)
      (fun x hx hpx => by
        rw [honly1 x hx (by simpa using hpx)]
        exact fun he => hvu he.symm),
      hcongr v]
    exact hndv

theorem applyRename_preserves_nodup (db : DB) (fid u : Nat) (nm : List Char) (v : Nat)
    (hids : (db.files.map (·.fid)).Nodup)
    (honly : ∀ x ∈ db.files, x.fid = fid → x.user_id = u)
    (hnew : ∀ g ∈ db.files, g.fid ≠ fid → g.user_id = u → g.filename ≠ nm)
    (hndu : (ownerNames db.files u).Nodup)
    (hndv : (ownerNames db.files v).Nodup) :
    (ownerNames ((applyRename db fid nm).1).files v).Nodup := by
  unfold applyRename
  cases hf : db.files.find? (fun g => g.fid == fid) with
  | none => exact hndv
  | some f =>
    dsimp only
    cases hf2 : (applyRenameDB db fid nm f).files.find? (fun g => g.fid == fid) with
    | none =>
      exact applyRenameDB_preserves_nodup db fid u nm f v hids honly hnew hndu hndv
    | some g =>
      exact applyRenameDB_preserves_nodup db fid u nm f v hids honly hnew hndu hndv

theorem renameFile_preserves_nodup (db : DB) (fid u : Nat) (requested : List Char)
    (force : Bool) (v : Nat)
    (hids : (db.files.map (·.fid)).Nodup)
    (hpar : ∀ f ∈ db.files, '(' ∉ extendRename f.filename requested)
    (hndu : (ownerNames db.files u).Nodup)
    (hndv : (ownerNames db.files v).Nodup) :
    (ownerNames ((renameFile db fid u requested force).1).files v).Nodup := by
  unfold renameFile
  by_cases hreq : (requested.isEmpty = true)
  · rw [if_pos hreq]
    exact hndv
  · rw [if_neg hreq]
    cases hf : db.files.find? (fun g => g.fid == fid) with
    | none => exact hndv
    | some f =>
      dsimp only
      have hfmem : f ∈ db.files := List.mem_of_find?_eq_some hf
      have hffid : f.fid = fid := by simpa using List.find?_some hf
      by_cases huf : ((f.user_id != u : Bool) = true)
      · rw [if_pos huf]
        exact hndv
      · rw [if_neg huf]
        have hu : f.user_id = u := by simpa using huf
        have honly : ∀ x ∈ db.files, x.fid = fid → x.user_id = u := by
          intro x hx hxf
          have hx2 : x = f :=
            List.inj_on_of_nodup_map hids hx hfmem (by rw [hxf, hffid])
          rw [hx2]
          exact hu
        by_cases hcol :
            ((otherNames db fid u).any (· == extendRename f.filename requested) = true)
        · rw [if_pos hcol]
          cases force with
          | false => exact hndv
          | true =>
            apply applyRename_preserves_nodup db fid u _ v hids honly ?_ hndu hndv
            intro g hg hgf hgu heq
            apply nextName_not_mem (nameStemExt (extendRename f.filename requested)).1
              (nameStemExt (extendRename f.filename requested)).2 (otherNames db fid u)
            · intro c hc he
              exact hpar f hfmem (by rw [← he]; exact nameStemExt_stem_mem hc)
            · unfold renameSugg at heq
              rw [← heq]
              unfold otherNames
              exact List.mem_map_of_mem _
                (List.mem_filter.mpr ⟨hg, by simp [hgf, hgu]⟩)
        · rw [if_neg hcol]
          apply applyRename_preserves_nodup db fid u _ v hids honly ?_ hndu hndv
          intro g hg hgf hgu heq
          apply hcol
          rw [List.any_eq_true]
          refine ⟨g.filename, ?_, by simp [heq]⟩
          unfold otherNames
          exact List.mem_map_of_mem _ (List.mem_filter.mpr ⟨hg, by simp [hgf, hgu]⟩)

/-! ## Specification-side naming resolver (for the refinement claim about
collision suggestions) -/

/-- From the spec's words: the `N` of an active name matching the pattern
`stem(N)extension` with `N` a positive integer, `none` when the name does not
match. -/
def specMatchN (stem ext name : List Char) : Option Nat :=
  if matchesSimilar stem ext name then
    if 1 ≤ digitsToNat ((name.drop (stem.length + 1)).takeWhile Char.isDigit) then
      some (digitsToNat ((name.drop (stem.length + 1)).takeWhile Char.isDigit))
    else none
  else none

/-- From the spec's words: the maximum `N` found over the names matching
`stem(N)extension` (`0` when none match, so that `N + 1 = 1`). -/
def specMaxN (stem ext : List Char) (names : List (List Char)) : Nat :=
  (names.filterMap (specMatchN stem ext)).foldl max 0

/-- From the spec's words, to be compared with the code's
`resolveUploadName`: on collision propose `stem(N+1)extension` where `N` is
the maximum positive integer over names matching `stem(N)extension`, and
`stem(1)extension` when no name matches. -/
def specResolveUploadName (u : Nat) (files : List FileRec) (desired : List Char) :
    List Char :=
  let mine := ownerNames files u
  if mine.any (· == desired) then
    (nameStemExt desired).1 ++
      '(' :: natToDecimal
        (specMaxN (nameStemExt desired).1 (nameStemExt desired).2 mine + 1) ++
      ')' :: (nameStemExt desired).2
  else desired

theorem drop_similar {stem ext ds name : List Char}
    (hname : name = stem ++ '(' :: (ds ++ ')' :: ext)) :
    name.drop (stem.length + 1) = ds ++ ')' :: ext := by
  rw [hname, show stem ++ '(' :: (ds ++ ')' :: ext)
      = (stem ++ ['(']) ++ (ds ++ ')' :: ext) by simp,
    show stem.length + 1 = (stem ++ ['(']).length by simp]
  exact List.drop_left _ _

theorem foldl_highStep_eq_specMax (stem ext : List Char)
    (hp : ∀ c ∈ stem, c ≠ '(') :
    ∀ (names : List (List Char)) (a : Nat),
      (names.filter (matchesSimilar stem ext)).foldl highStep a =
        (names.filterMap (specMatchN stem ext)).foldl max a := by
  intro names
  induction names with
  | nil => intro a; rfl
  | cons nm rest ih =>
    intro a
    cases hsim : matchesSimilar stem ext nm with
    | false =>
      rw [List.filter_cons, if_neg (by simp [hsim]), List.filterMap_cons,
        show specMatchN stem ext nm = none by unfold specMatchN; rw [if_neg (by simp [hsim])]]
      exact ih a
    | true =>
      obtain ⟨ds, hnm, hne, hd, hfpn⟩ := firstParenNum_of_similar hp hsim
      have htw : (ds ++ ')' :: ext).takeWhile Char.isDigit = ds :=
        (takeWhile_all_append _ ds ext ')' hd (by decide)).1
      have hmatch : specMatchN stem ext nm =
          if 1 ≤ digitsToNat ds then some (digitsToNat ds) else none := by
        unfold specMatchN
        rw [if_pos hsim, drop_similar hnm, htw]
      have hstep : highStep a nm = max a (digitsToNat ds) := by
        unfold highStep
        rw [hfpn]
        simp only []
        split <;> omega
      rw [List.filter_cons, if_pos hsim, List.filterMap_cons, hmatch]
      by_cases hv : 1 ≤ digitsToNat ds
      · rw [if_pos hv]
        simp only [List.foldl_cons]
        rw [hstep]
        exact ih _
      · have hv0 : digitsToNat ds = 0 := by omega
        rw [if_neg hv]
        simp only [List.foldl_cons]
        rw [hstep, hv0]
        simp [Nat.max_eq_left (Nat.zero_le a)]
        exact ih a

theorem codeHighest_eq_specMaxN (stem ext : List Char) (names : List (List Char))
    (hp : ∀ c ∈ stem, c ≠ '(') :
    codeHighest stem ext names = specMaxN stem ext names := by
  rw [codeHighest_eq_foldl]
  unfold specMaxN
  exact foldl_highStep_eq_specMax stem ext hp names 0

/-! ## Quota ledger lemmas -/

theorem getLimit_increase (users : List UserRec) (uid : Nat) (a : Int)
    (un : List Char) :
    getLimit (increase_storage_limit users uid a un).1 uid =
      (getLimit users uid).map (· + storageAddMB a un) := by
  unfold increase_storage_limit
  cases hfind : users.find? (fun w => w.uid == uid) with
  | none =>
    dsimp only
    unfold getLimit
    rw [hfind]
    rfl
  | some w =>
    dsimp only
    unfold getLimit
    rw [find?_updateFirst (fun x => x.uid == uid)
      (fun x => { x with storage_limit := w.storage_limit + storageAddMB a un })
      users (fun x => rfl), hfind]
    rfl

theorem applyIncreases_getLimit (users : List UserRec) (uid : Nat)
    (calls : List (Int × List Char)) :
    getLimit (applyIncreases users uid calls) uid =
      (getLimit users uid).map
        (· + (calls.map (fun c => storageAddMB c.1 c.2)).sum) := by
  induction calls generalizing users with
  | nil => cases h : getLimit users uid <;> simp [applyIncreases, h]
  | cons c cs ih =>
    have h1 : applyIncreases users uid (c :: cs) =
        applyIncreases (increase_storage_limit users uid c.1 c.2).1 uid cs := rfl
    rw [h1, ih, getLimit_increase]
    cases h : getLimit users uid with
    | none => simp
    | some x =>
      simp only [Option.map_some', Option.some.injEq, List.map_cons, List.sum_cons]
      ring

/-! ## Claim theorems -/

/-- Store used by C2's evaluation: owner 1 has a collection whose member set
contains record id 5, and a trashed file whose original id is 5. -/
def c2db : DB :=
  { colls := [{ cid := 2, owner_id := 1, name := ['c'], files := [5] }]
    trash := [{ tid := 9, user_id := 1, ttype := .file, original_id := 5,
                deleted_at := 3, filename := "a.txt".data }]
    nextId := 10 }

/-- C2: the claim says that after purging a trashed file, the purged record's
identifier is absent from every collection of the owner.  The code's purge
(`DeletePermanently.delete`) only deletes the TrashBin entry: evaluating it on
a store where collection 2 contains the purged record id 5 shows the id still
present afterwards — the cascade the spec requires is missing (a defect the
spec itself flags). -/
theorem claim2_purge_does_not_cascade :
    (deletePermanently c2db 9 1).2 = .deleted ∧
    (deletePermanently c2db 9 1).1.trash = [] ∧
    (deletePermanently c2db 9 1).1.colls.map (·.files) = [[5]] := by decide

/-- Store used by C3's evaluation: a trashed file with original id 5, while a
new active record now occupies id 5. -/
def c3db : DB :=
  { files := [{ fid := 5, user_id := 1, filename := "b.txt".data,
                stored_filename := "8_b.txt".data, file_data := [1],
                file_type := .document, file_size := 1, upload_date := 4 }]
    trash := [{ tid := 9, user_id := 1, ttype := .file, original_id := 5,
                deleted_at := 3, filename := "a.txt".data, file_data := [2],
                file_type := .document, file_size := 1 }]
    nextId := 10 }

/-- C3: the claim says a restore whose original identifier is occupied
succeeds with a freshly minted identifier and `identityChanged: true`.  The
code (`RestoreFile.post`) instead inserts with the original `_id`; the
duplicate-key error reaches the generic `except` and the operation fails with
a 500 and no state change — no fresh id, no `identityChanged` flag (the
string `identityChanged` does not occur in the source at all). -/
theorem claim3_restore_occupied_fails :
    restoreFile c3db 5 1 = (c3db, .serverError) := by decide

/-- C7 counterexample: the claim says every operation taking an entity id
validates the 24-hex shape before querying and rejects malformed ids with an
`InvalidIdentifier` outcome.  `FileDownload.get` does no validation: on a
malformed id the `ObjectId` constructor raises inside the handler and the
generic handler returns a 500 internal error (`DownloadOutcome.serverError`),
not an invalid-identifier rejection (its outcome type has no such case). -/
theorem claim7_counterexample :
    fileDownloadGet {} "xyz".data 1 = DownloadOutcome.serverError := by decide

/-- C7 amended: the collection-detail routes do validate the 24-character
hexadecimal shape before querying and reject malformed identifiers with a 400
`InvalidIdentifier` outcome; the file routes do not validate, and a malformed
identifier surfaces as a 500 internal error from the failed `ObjectId`
parse. -/
theorem claim7_amended :
    (∀ (db : DB) (cidStr : List Char) (u : Nat), parseOid cidStr = none →
      collectionDetailGet db cidStr u = .invalidFormat) ∧
    (∀ (db : DB) (fidStr : List Char) (u : Nat), parseOid fidStr = none →
      fileDownloadGet db fidStr u = .serverError) := by
  constructor
  · intro db cidStr u hp
    unfold collectionDetailGet
    by_cases hl : ((cidStr.length != 24) = true)
    · rw [if_pos hl]
    · rw [if_neg hl, hp]
  · intro db fidStr u hp
    unfold fileDownloadGet
    rw [hp]

/-- Witness for C7's amended theorem at concrete malformed identifiers. -/
theorem claim7_witness :
    collectionDetailGet {} "zz".data 1 = CollGetOutcome.invalidFormat ∧
    fileDownloadGet {} "zz".data 1 = DownloadOutcome.serverError :=
  ⟨claim7_amended.1 {} "zz".data 1 (by decide),
   claim7_amended.2 {} "zz".data 1 (by decide)⟩

/-- C8: the final stored storage limit after any sequence of `increase`
calls equals the initial limit plus the sum of the unit-normalised amounts
(1 GB = 1024 MB, 1 TB = 1024×1024 MB, anything else taken as MB), so the
result is independent of the order of the calls; and 1 GB followed by
1024 MB gives the same limit as a single 2 GB increase. -/
theorem claim8_increase_additive :
    (∀ (users : List UserRec) (uid : Nat) (calls : List (Int × List Char)),
      getLimit (applyIncreases users uid calls) uid =
        (getLimit users uid).map
          (· + (calls.map (fun c => storageAddMB c.1 c.2)).sum)) ∧
    (∀ (users : List UserRec) (uid : Nat) (calls calls2 : List (Int × List Char)),
      calls.Perm calls2 →
      getLimit (applyIncreases users uid calls) uid =
        getLimit (applyIncreases users uid calls2) uid) ∧
    (getLimit (applyIncreases [⟨1, 24576⟩] 1 [(1, "GB".data), (1024, "MB".data)]) 1 =
      getLimit (applyIncreases [⟨1, 24576⟩] 1 [(2, "GB".data)]) 1) := by
  refine ⟨applyIncreases_getLimit, ?_, by decide⟩
  intro users uid calls calls2 hperm
  rw [applyIncreases_getLimit, applyIncreases_getLimit,
    (hperm.map (fun c => storageAddMB c.1 c.2)).sum_eq]

/-- Witness for C8 at a concrete user and a concrete permutation. -/
theorem claim8_witness :
    getLimit (applyIncreases [⟨1, 100⟩] 1 [(1, "GB".data), (5, "MB".data)]) 1 =
      getLimit (applyIncreases [⟨1, 100⟩] 1 [(5, "MB".data), (1, "GB".data)]) 1 :=
  claim8_increase_additive.2.1 [⟨1, 100⟩] 1 _ _ (by decide)

/-- Trace for C1's counterexample: owner 1 uploads `a.txt`, soft-deletes it,
uploads a fresh `a.txt` (the name is free again), then restores the trashed
one. -/
def c1db1 : DB := (uploadOne 1 [] 0 {} "a.txt".data [7]).1

def c1db2 : DB := (softDeleteFile c1db1 1 1 5).1

def c1db3 : DB := (uploadOne 1 [] 0 c1db2 "a.txt".data [8]).1

/-- C1 counterexample: the claim says every exposed operation — including
restore after the name has been reused — preserves per-owner uniqueness of
active display names.  Running upload, soft-delete, re-upload of the same
name, then restore (which checks identifiers but never names) leaves owner 1
with two active records both named `a.txt`. -/
theorem claim1_counterexample :
    (restoreFile c1db3 1 1).2 = .restored ∧
    ¬ (ownerNames (restoreFile c1db3 1 1).1.files 1).Nodup := by decide

/-- C1 amended: upload, rename and soft-delete preserve per-owner uniqueness
of active display names (upload and rename under the sanitisation guarantee
that the requested name is parenthesis-free, which `secure_filename`
enforces); restore does not preserve it, as the counterexample shows. -/
theorem claim1_amended :
    (∀ (db : DB) (u : Nat) (name : List Char) (data : List Nat)
        (desc : List Char) (now v : Nat),
      '(' ∉ name → (ownerNames db.files v).Nodup →
      (ownerNames ((uploadOne u desc now db name data).1).files v).Nodup) ∧
    (∀ (db : DB) (fid u : Nat) (requested : List Char) (force : Bool) (v : Nat),
      (db.files.map (·.fid)).Nodup →
      (∀ f ∈ db.files, '(' ∉ extendRename f.filename requested) →
      (ownerNames db.files u).Nodup → (ownerNames db.files v).Nodup →
      (ownerNames ((renameFile db fid u requested force).1).files v).Nodup) ∧
    (∀ (db : DB) (fid u now v : Nat), (ownerNames db.files v).Nodup →
      (ownerNames ((softDeleteFile db fid u now).1).files v).Nodup) :=
  ⟨fun db u name data desc now v hp hnd =>
      uploadOne_preserves_nodup u desc now db name data v hp hnd,
   fun db fid u requested force v hids hpar hndu hndv =>
      renameFile_preserves_nodup db fid u requested force v hids hpar hndu hndv,
   fun db fid u now v hnd => softDeleteFile_preserves_nodup db fid u now v hnd⟩

/-- Witness for C1's amended theorem: each conjunct applied at a concrete
store. -/
theorem claim1_amended_witness :
    (ownerNames ((uploadOne 1 [] 0 c1db1 "a.txt".data [9]).1).files 1).Nodup ∧
    (ownerNames ((renameFile c1db1 1 1 "b.txt".data false).1).files 1).Nodup ∧
    (ownerNames ((softDeleteFile c1db1 1 1 9).1).files 1).Nodup :=
  ⟨claim1_amended.1 c1db1 1 "a.txt".data [9] [] 0 1 (by decide) (by decide),
   claim1_amended.2.1 c1db1 1 1 "b.txt".data false 1 (by decide)
     (by decide) (by decide) (by decide),
   claim1_amended.2.2 c1db1 1 1 9 1 (by decide)⟩

/-- Triple upload of `report.pdf` for owner 7 (C5's concrete consequence). -/
def c5db1 : DB := (uploadOne 7 [] 0 {} "report.pdf".data [1]).1

def c5db2 : DB := (uploadOne 7 [] 0 c5db1 "report.pdf".data [1]).1

def c5db3 : DB := (uploadOne 7 [] 0 c5db2 "report.pdf".data [1]).1

/-- C5: on a collision the upload resolver proposes `stem(N+1)extension`
where `N` is the maximum positive integer over the owner's active names
matching `stem(N)extension`, or `stem(1)extension` when none match — the
code's resolver agrees with the spec-side resolver for every parenthesis-free
desired name (the shape `secure_filename` guarantees); consequently uploading
`report.pdf` three times yields `report.pdf`, `report(1).pdf`,
`report(2).pdf`, in that order. -/
theorem claim5_collision_suggestion :
    (∀ (u : Nat) (files : List FileRec) (desired : List Char), '(' ∉ desired →
      resolveUploadName u files desired = specResolveUploadName u files desired) ∧
    ownerNames c5db3.files 7 =
      ["report.pdf".data, "report(1).pdf".data, "report(2).pdf".data] := by
  constructor
  · intro u files desired hp
    unfold resolveUploadName specResolveUploadName
    by_cases h : (((ownerNames files u).any (· == desired)) = true)
    · rw [if_pos h, if_pos h]
      unfold nextName
      dsimp only
      rw [codeHighest_eq_specMaxN _ _ _
        (fun c hc he => hp (by rw [← he]; exact nameStemExt_stem_mem hc))]
    · rw [if_neg h, if_neg h]
  · decide

/-- Witness for C5's universally quantified conjunct at a concrete store. -/
theorem claim5_witness :
    resolveUploadName 7 c5db2.files "report.pdf".data =
      specResolveUploadName 7 c5db2.files "report.pdf".data :=
  claim5_collision_suggestion.1 7 c5db2.files "report.pdf".data (by decide)

theorem applyRename_renamed {db : DB} {fid : Nat} {f : FileRec} (nm : List Char)
    (hf : db.files.find? (fun g => g.fid == fid) = some f) :
    applyRename db fid nm =
      (applyRenameDB db fid nm f,
       .renamed (setFName nm
         (setStored (renStored db.nextId f.stored_filename nm) f))) := by
  unfold applyRename
  rw [hf]
  dsimp only
  have h1 : (updateFirst (fun g => g.fid == fid)
      (setStored (renStored db.nextId f.stored_filename nm)) db.files).find?
      (fun g => g.fid == fid)
      = some (setStored (renStored db.nextId f.stored_filename nm) f) := by
    rw [find?_updateFirst (fun g => g.fid == fid)
      (setStored (renStored db.nextId f.stored_filename nm)) db.files
      (fun x => rfl), hf]
    rfl
  have h2 : (applyRenameDB db fid nm f).files.find? (fun g => g.fid == fid)
      = some (setFName nm
          (setStored (renStored db.nextId f.stored_filename nm) f)) := by
    unfold applyRenameDB
    dsimp only
    rw [find?_updateFirst (fun g => g.fid == fid) (setFName nm) _
      (fun x => rfl), h1]
    rfl
  rw [h2]

/-- C6: when the requested new name collides with another active record of
the same owner (the record itself excluded), a rename without the force flag
changes no stored state and reports the collision together with the suggested
name, while a rename with the force flag applies exactly the suggested
name. -/
theorem claim6_rename_confirm_first (db : DB) (fid u : Nat)
    (requested : List Char) (f : FileRec)
    (hreq : requested.isEmpty = false)
    (hf : db.files.find? (fun g => g.fid == fid) = some f)
    (hu : f.user_id = u)
    (hcol : (otherNames db fid u).any
      (· == extendRename f.filename requested) = true) :
    renameFile db fid u requested false =
      (db, .collision (renameSugg db fid u (extendRename f.filename requested))) ∧
    ∃ g, (renameFile db fid u requested true).2 = .renamed g ∧
      g.filename = renameSugg db fid u (extendRename f.filename requested) := by
  constructor
  · unfold renameFile
    rw [if_neg (by simp [hreq]), hf]
    dsimp only
    rw [if_neg (by simp [hu]), if_pos hcol]
    simp
  · refine ⟨setFName (renameSugg db fid u (extendRename f.filename requested))
      (setStored (renStored db.nextId f.stored_filename
        (renameSugg db fid u (extendRename f.filename requested))) f), ?_, rfl⟩
    unfold renameFile
    rw [if_neg (by simp [hreq]), hf]
    dsimp only
    rw [if_neg (by simp [hu]), if_pos hcol, if_pos rfl,
      applyRename_renamed _ hf]

/-- Witness store for C6: record 1 (`a.txt`) is renamed to `b.txt`, which
record 2 already uses. -/
def c6db : DB :=
  { files := [{ fid := 1, user_id := 1, filename := "a.txt".data,
                stored_filename := "7_a.txt".data, file_data := [1],
                file_type := .document, file_size := 1, upload_date := 0 },
              { fid := 2, user_id := 1, filename := "b.txt".data,
                stored_filename := "8_b.txt".data, file_data := [1],
                file_type := .document, file_size := 1, upload_date := 0 }]
    nextId := 10 }

/-- Witness for C6 at a concrete store. -/
theorem claim6_witness :
    renameFile c6db 1 1 "b.txt".data false =
      (c6db, .collision (renameSugg c6db 1 1
        (extendRename "a.txt".data "b.txt".data))) ∧
    ∃ g, (renameFile c6db 1 1 "b.txt".data true).2 = .renamed g ∧
      g.filename = renameSugg c6db 1 1 (extendRename "a.txt".data "b.txt".data) :=
  claim6_rename_confirm_first c6db 1 1 "b.txt".data
    { fid := 1, user_id := 1, filename := "a.txt".data,
      stored_filename := "7_a.txt".data, file_data := [1],
      file_type := .document, file_size := 1, upload_date := 0 }
    (by decide) (by decide) (by decide) (by decide)

/-- Store for the first C9 counterexample run (uppercase extension). -/
def claim9cexDB : DB :=
  { files := [{ fid := 1, user_id := 1, filename := "a.TXT".data,
                stored_filename := "7_a.TXT".data, file_data := [1],
                file_type := .other, file_size := 1, upload_date := 0 }]
    nextId := 10 }

/-- Store for the second C9 counterexample run (forced rename under
collision). -/
def claim9cexDB2 : DB :=
  { files := [{ fid := 1, user_id := 1, filename := "a.txt".data,
                stored_filename := "7_a.txt".data, file_data := [1],
                file_type := .other, file_size := 1, upload_date := 0 },
              { fid := 2, user_id := 1, filename := "b.txt".data,
                stored_filename := "8_b.txt".data, file_data := [1],
                file_type := .other, file_size := 1, upload_date := 0 }]
    nextId := 10 }

/-- C9 counterexample: the claim says the applied new name is the requested
name with the record's original extension appended.  Two concrete runs
refute it as stated: renaming `a.TXT` to `b` applies `b.txt` (the extension
is lowercased, not the original `TXT`), and a forced rename under collision
applies the suggestion `b(1).txt` rather than the requested name with the
extension. -/
theorem claim9_counterexample :
    (renameFile claim9cexDB 1 1 "b".data false).2 =
      .renamed { fid := 1, user_id := 1, filename := "b.txt".data,
                 stored_filename := "7_b.txt".data, file_data := [1],
                 file_type := .other, file_size := 1, upload_date := 0 } ∧
    "b.txt".data ≠ "b".data ++ '.' :: "TXT".data ∧
    (renameFile claim9cexDB2 1 1 "b".data true).2 =
      .renamed { fid := 1, user_id := 1, filename := "b(1).txt".data,
                 stored_filename := "7_b(1).txt".data, file_data := [1],
                 file_type := .other, file_size := 1, upload_date := 0 } ∧
    "b(1).txt".data ≠ "b".data ++ '.' :: "txt".data := by decide

/-- C9 amended: for a rename that succeeds without collision handling, where
the record's current filename has an extension and the sanitised requested
name contains no dot, the applied new name is the requested name with the
record's original extension lowercased appended; and the updated record keeps
its `file_type`, `file_data` and `file_size` unchanged. -/
theorem claim9_amended (db : DB) (fid u : Nat) (requested : List Char)
    (f : FileRec) (force : Bool) (s e : List Char)
    (hreq : requested.isEmpty = false)
    (hf : db.files.find? (fun g => g.fid == fid) = some f)
    (hu : f.user_id = u)
    (hsplit : splitLastDot f.filename = some (s, e))
    (hnodot : requested.contains '.' = false)
    (hnocol : (otherNames db fid u).any
      (· == requested ++ '.' :: e.map Char.toLower) = false) :
    ∃ g, (renameFile db fid u requested force).2 = .renamed g ∧
      g.filename = requested ++ '.' :: e.map Char.toLower ∧
      g.file_type = f.file_type ∧ g.file_data = f.file_data ∧
      g.file_size = f.file_size := by
  have hext : extendRename f.filename requested =
      requested ++ '.' :: e.map Char.toLower := by
    unfold extendRename
    rw [hsplit]
    dsimp only
    rw [if_neg (by rw [hnodot]; exact Bool.false_ne_true)]
  refine ⟨setFName (requested ++ '.' :: e.map Char.toLower)
    (setStored (renStored db.nextId f.stored_filename
      (requested ++ '.' :: e.map Char.toLower)) f), ?_, rfl, rfl, rfl, rfl⟩
  unfold renameFile
  rw [if_neg (by simp [hreq]), hf]
  dsimp only
  rw [if_neg (by simp [hu]), hext, if_neg (by simp [hnocol]),
    applyRename_renamed _ hf]

/-- Witness for C9's amended theorem at a concrete store. -/
theorem claim9_witness :
    ∃ g, (renameFile claim9cexDB 1 1 "b".data false).2 = .renamed g ∧
      g.filename = "b".data ++ '.' :: ("TXT".data.map Char.toLower) ∧
      g.file_type = FType.other ∧ g.file_data = [1] ∧ g.file_size = 1 :=
  claim9_amended claim9cexDB 1 1 "b".data
    { fid := 1, user_id := 1, filename := "a.TXT".data,
      stored_filename := "7_a.TXT".data, file_data := [1],
      file_type := .other, file_size := 1, upload_date := 0 }
    false "a".data "TXT".data (by decide) (by decide) (by decide) (by decide)
    (by decide) (by decide)

theorem deleteFirst_fid_ne (l : List FileRec) (k : Nat)
    (hids : (l.map (·.fid)).Nodup) :
    ∀ g ∈ deleteFirst (fun x => x.fid == k) l, g.fid ≠ k := by
  induction l with
  | nil => simp [deleteFirst]
  | cons x xs ih =>
    rw [List.map_cons, List.nodup_cons] at hids
    by_cases hx : ((x.fid == k) = true)
    · rw [deleteFirst, if_pos hx]
      intro g hg he
      have hxk : x.fid = k := by simpa using hx
      apply hids.1
      have hmm : g.fid ∈ List.map (fun x => x.fid) xs := List.mem_map_of_mem _ hg
      rwa [he, ← hxk] at hmm
    · rw [deleteFirst, if_neg hx]
      intro g hg
      rcases List.mem_cons.mp hg with rfl | hmem
      · simpa using hx
      · exact ih hids.2 g hmem

/-- C4: soft-deleting an active record and then restoring it while its
original identifier is still free re-creates an active record equal to the
original (in particular with the same payload handle, data, size, name,
description and upload date), re-uses the original identifier, and removes
the TrashBin entry again (the trash returns to its prior contents).  The
hypotheses say: the record is the (first-match) active record under its id,
owned by `u`; active ids are duplicate-free; no older trash entry answers the
restore lookup for this id; and the minted TrashBin id is fresh. -/
theorem claim4_softdelete_restore_roundtrip (db : DB) (f : FileRec) (u now : Nat)
    (hf : db.files.find? (fun g => g.fid == f.fid) = some f)
    (hu : f.user_id = u)
    (hids : (db.files.map (·.fid)).Nodup)
    (htr : ∀ t ∈ db.trash,
      (t.original_id == f.fid && t.user_id == u && t.ttype == TType.file) = false)
    (htid : ∀ t ∈ db.trash, (t.tid == db.nextId) = false) :
    (softDeleteFile db f.fid u now).2 = .movedToTrash ∧
    (restoreFile (softDeleteFile db f.fid u now).1 f.fid u).2 = .restored ∧
    (restoreFile (softDeleteFile db f.fid u now).1 f.fid u).1.files =
      deleteFirst (fun g => g.fid == f.fid) db.files ++ [f] ∧
    (restoreFile (softDeleteFile db f.fid u now).1 f.fid u).1.trash = db.trash := by
  have hsd : softDeleteFile db f.fid u now =
      ({ db with
          trash := db.trash ++ [trashOfFile db.nextId u f.fid now f]
          files := deleteFirst (fun g => g.fid == f.fid) db.files
          nextId := db.nextId + 1 }, .movedToTrash) := by
    unfold softDeleteFile
    rw [hf]
    dsimp only
    rw [if_neg (by simp [hu])]
  rw [hsd]
  refine ⟨rfl, ?_⟩
  have hfind : (db.trash ++ [trashOfFile db.nextId u f.fid now f]).find?
      (fun t => t.original_id == f.fid && t.user_id == u && t.ttype == TType.file)
      = some (trashOfFile db.nextId u f.fid now f) := by
    rw [find?_append_of_none _ _ _ htr]
    simp [List.find?, trashOfFile]
  unfold restoreFile
  dsimp only
  rw [hfind]
  dsimp only
  unfold restoreFound
  dsimp only
  have hany : (deleteFirst (fun g => g.fid == f.fid) db.files).any
      (fun g => g.fid == (trashOfFile db.nextId u f.fid now f).original_id)
      = false := by
    apply List.any_eq_false.mpr
    intro g hg
    have := deleteFirst_fid_ne db.files f.fid hids g hg
    simp [trashOfFile, this]
  rw [if_neg (by rw [hany]; exact Bool.false_ne_true)]
  have htrash : deleteFirst
      (fun x => x.tid == (trashOfFile db.nextId u f.fid now f).tid)
      (db.trash ++ [trashOfFile db.nextId u f.fid now f]) = db.trash := by
    apply deleteFirst_append_singleton
    · intro x hx
      exact htid x hx
    · simp
  have hr : ({ fid := (trashOfFile db.nextId u f.fid now f).original_id
               user_id := u
               filename := (trashOfFile db.nextId u f.fid now f).filename
               stored_filename := (trashOfFile db.nextId u f.fid now f).stored_filename
               file_data := (trashOfFile db.nextId u f.fid now f).file_data
               file_type := (trashOfFile db.nextId u f.fid now f).file_type
               file_size := (trashOfFile db.nextId u f.fid now f).file_size
               file_path := (trashOfFile db.nextId u f.fid now f).file_path
               upload_date := (trashOfFile db.nextId u f.fid now f).upload_date
               description := (trashOfFile db.nextId u f.fid now f).description
               collections := (trashOfFile db.nextId u f.fid now f).collections } :
      FileRec) = f := by
    rw [← hu]
    rfl
  refine ⟨rfl, ?_, ?_⟩
  · dsimp only
    rw [hr]
  · dsimp only
    rw [htrash]

/-- Concrete store for C4's witness: a single active record, empty trash. -/
def c4db : DB :=
  { files := [{ fid := 1, user_id := 1, filename := "a.txt".data,
                stored_filename := "0_a.txt".data, file_data := [3, 4],
                file_type := .document, file_size := 2, upload_date := 6,
                description := "d".data }]
    nextId := 2 }

/-- Witness for C4 at a concrete store. -/
theorem claim4_witness :
    (softDeleteFile c4db 1 1 9).2 = .movedToTrash ∧
    (restoreFile (softDeleteFile c4db 1 1 9).1 1 1).2 = .restored ∧
    (restoreFile (softDeleteFile c4db 1 1 9).1 1 1).1.files =
      deleteFirst (fun g => g.fid == 1) c4db.files ++
        [{ fid := 1, user_id := 1, filename := "a.txt".data,
           stored_filename := "0_a.txt".data, file_data := [3, 4],
           file_type := .document, file_size := 2, upload_date := 6,
           description := "d".data }] ∧
    (restoreFile (softDeleteFile c4db 1 1 9).1 1 1).1.trash = [] :=
  claim4_softdelete_restore_roundtrip c4db
    { fid := 1, user_id := 1, filename := "a.txt".data,
      stored_filename := "0_a.txt".data, file_data := [3, 4],
      file_type := .document, file_size := 2, upload_date := 6,
      description := "d".data }
    1 9 (by decide) (by decide) (by decide) (by decide) (by decide)

theorem uploadItems_spec (u : Nat) (desc : List Char) (now : Nat) :
    ∀ (items : List (List Char × List Nat)) (db : DB),
      (uploadItems u desc now db items).2.2.length =
        (items.filter (fun it => it.2.length == 0)).length ∧
      (uploadItems u desc now db items).1.files =
        db.files ++ (uploadItems u desc now db items).2.1 ∧
      (uploadItems u desc now db items).2.1.length =
        (items.filter (fun it => !(it.2.length == 0))).length ∧
      (∀ e ∈ (uploadItems u desc now db items).2.2,
        ∃ nm, e = "Empty file: ".data ++ nm) := by
  intro items
  induction items with
  | nil => intro db; simp [uploadItems]
  | cons it rest ih =>
    intro db
    obtain ⟨nm, dt⟩ := it
    unfold uploadItems uploadOne
    by_cases hz : ((dt.length == 0) = true)
    · rw [if_pos hz]
      dsimp only
      obtain ⟨ih1, ih2, ih3, ih4⟩ := ih db
      refine ⟨?_, ih2, ?_, ?_⟩
      · rw [List.length_cons, ih1, List.filter_cons, if_pos hz, List.length_cons]
      · rw [ih3, List.filter_cons, if_neg (by simp [hz])]
      · intro e he
        rcases List.mem_cons.mp he with rfl | hmem
        · exact ⟨resolveUploadName u db.files nm, rfl⟩
        · exact ih4 e hmem
    · have hzb : (dt.length == 0) = false := by simpa using hz
      rw [if_neg hz]
      dsimp only
      obtain ⟨ih1, ih2, ih3, ih4⟩ :=
        ih { db with
              files := db.files ++
                [{ fid := db.nextId + 1, user_id := u,
                   filename := resolveUploadName u db.files nm,
                   stored_filename := natToDecimal db.nextId ++
                     '_' :: resolveUploadName u db.files nm,
                   file_data := dt, file_type := get_file_type nm,
                   file_size := dt.length, upload_date := now,
                   description := desc }]
              nextId := db.nextId + 2 }
      refine ⟨?_, ?_, ?_, ih4⟩
      · rw [ih1, List.filter_cons, if_neg (by simp [hzb])]
      · rw [ih2]
        simp
      · rw [List.length_cons, ih3, List.filter_cons, if_pos (by simp [hzb]),
          List.length_cons]

/-- C10: in every upload batch, each submitted file with empty content is
skipped — no record for it reaches the Active Store (the files collection
grows by exactly the successful results), its error entry (`Empty file: …`)
is added to the errors list (one error per empty file, one result per
non-empty file), and the batch status is 200 when there are no errors and
207 when there is at least one. -/
theorem claim10_empty_files_skipped (u : Nat) (desc : List Char) (now : Nat)
    (db : DB) (items : List (List Char × List Nat)) :
    (uploadBatch u desc now db items).errors.length =
      (items.filter (fun it => it.2.length == 0)).length ∧
    (uploadBatch u desc now db items).db.files =
      db.files ++ (uploadBatch u desc now db items).results ∧
    (uploadBatch u desc now db items).results.length =
      (items.filter (fun it => !(it.2.length == 0))).length ∧
    (∀ e ∈ (uploadBatch u desc now db items).errors,
      ∃ nm, e = "Empty file: ".data ++ nm) ∧
    ((uploadBatch u desc now db items).errors = [] →
      (uploadBatch u desc now db items).status = 200) ∧
    ((uploadBatch u desc now db items).errors ≠ [] →
      (uploadBatch u desc now db items).status = 207) := by
  obtain ⟨h1, h2, h3, h4⟩ := uploadItems_spec u desc now items db
  unfold uploadBatch
  dsimp only
  refine ⟨h1, h2, h3, h4, ?_, ?_⟩
  · intro he
    simp [he]
  · intro he
    rw [List.isEmpty_eq_false.mpr he]
    rfl

/-- Witness for C10 at a concrete two-file batch with one empty file. -/
theorem claim10_witness :
    (uploadBatch 1 [] 0 {} [("a.txt".data, [1]), ("b.txt".data, [])]).errors.length =
      ([("a.txt".data, ([1] : List Nat)), ("b.txt".data, [])].filter
        (fun it => it.2.length == 0)).length ∧
    (∃ nm, "Empty file: b.txt".data = "Empty file: ".data ++ nm) ∧
    (uploadBatch 1 [] 0 {} [("a.txt".data, [1]), ("b.txt".data, [])]).status = 207 :=
  ⟨(claim10_empty_files_skipped 1 [] 0 {}
      [("a.txt".data, [1]), ("b.txt".data, [])]).1,
   (claim10_empty_files_skipped 1 [] 0 {}
      [("a.txt".data, [1]), ("b.txt".data, [])]).2.2.2.1
      "Empty file: b.txt".data (by decide),
   (claim10_empty_files_skipped 1 [] 0 {}
      [("a.txt".data, [1]), ("b.txt".data, [])]).2.2.2.2.2 (by decide)⟩

end CloudStorage
